import Mathlib

set_option maxRecDepth 8000

/-!
# Verification of the hegemon interactive core (`src/model.rs`)

Shallow embedding of the `Application` state machine of hegemon's
`model.rs`: the viewport algorithm `scroll_to_stream`, the bounded
value-history of `update_streams`, the event handler `handle`, and
`resize`.  Rust `usize` values are modelled as `Nat`; fallible code
(slice indexing that can panic, `unwrap`, failing `assert!`) is
modelled with `Option`, `none` standing for a panic/abort.
`f64` values are modelled by an inductive `F64` with an explicit
rational payload for finite values, since the code only compares
stream values and never computes with them.
-/

namespace Hegemon

/-- Model of an `f64` sample: a finite rational, an infinity, or NaN.
The code only tests finiteness and compares (`>=`, `<=`), so this
carries exactly the structure those operations observe. -/
inductive F64 where
  | finite (q : ℚ)
  | inf
  | neginf
  | nan
deriving DecidableEq

/-- `f64::is_finite`. -/
def F64.isFinite : F64 → Bool
  | .finite _ => true
  | _ => false

/-- IEEE-754 `<=` on the model: any comparison with NaN is false. -/
def F64.fle : F64 → F64 → Bool
  | .nan, _ => false
  | _, .nan => false
  | .neginf, _ => true
  | _, .inf => true
  | .finite a, .finite b => decide (a ≤ b)
  | _, _ => false

/-- `const VALUE_HISTORY_SIZE: usize = 512` (model.rs line 24). -/
def VALUE_HISTORY_SIZE : Nat := 512

/-- The `Screen` enum (model.rs lines 275-279). -/
inductive Screen where
  | Main
  | Streams
deriving DecidableEq

/-- The `ScrollAnchor` enum (model.rs lines 299-303). -/
inductive ScrollAnchor where
  | Top
  | Bottom
deriving DecidableEq

/-- The observable behaviour of a `Box<dyn Stream>` at one tick:
what `value()`, `min()` and `max()` return (stream.rs is external;
the core only calls these three methods in `update_streams`). -/
structure StreamData where
  value : Option F64
  min : Option F64
  max : Option F64
deriving DecidableEq

/-- `StreamWrapper` (model.rs lines 281-286): the wrapped stream, its
bounded value history, and the activation/expansion flags. -/
structure StreamWrapper where
  stream : StreamData
  values : List (Option F64)
  active : Bool
  expanded : Bool
deriving DecidableEq

/-- `Interval` (model.rs lines 305-309); durations kept in milliseconds. -/
structure Interval where
  duration_ms : Nat
  tick_spacing : Nat
deriving DecidableEq

/-- The fixed `intervals` list built in `Application::new`
(model.rs lines 80-92); the field is private and never mutated. -/
def intervals : List Interval :=
  [⟨100, 10⟩, ⟨200, 10⟩, ⟨500, 10⟩, ⟨1000, 10⟩, ⟨2000, 15⟩, ⟨3000, 10⟩,
   ⟨5000, 12⟩, ⟨10000, 12⟩, ⟨30000, 10⟩, ⟨60000, 10⟩, ⟨300000, 12⟩]

/-- The mutable `Application` state (model.rs lines 26-40).  The
`intervals` field is the fixed constant above and the `menus` map is
static per screen, so neither is carried in the state. -/
structure Application where
  running : Bool
  width : Nat
  height : Nat
  screen : Screen
  streams : List StreamWrapper
  selection_index : Nat
  scroll_index : Nat
  scroll_anchor : ScrollAnchor
  interval_index : Nat
deriving DecidableEq

/-- Key events (the termion `Key` variants the code matches on;
`Other` stands for every unhandled key). -/
inductive Key where
  | Up
  | Down
  | Esc
  | Char (c : Char)
  | Other
deriving DecidableEq

/-- Mouse buttons (termion `MouseButton`). -/
inductive MouseButton where
  | Left
  | Right
  | Middle
  | WheelUp
  | WheelDown
deriving DecidableEq

/-- Mouse events: the code matches only `MouseEvent::Press`;
`Other` stands for `Release`/`Hold`. -/
inductive MouseEvent where
  | Press (b : MouseButton) (x y : Nat)
  | Other
deriving DecidableEq

/-- Input events (termion `Event`; `Unsupported` for the rest). -/
inductive Event where
  | key (k : Key)
  | mouse (m : MouseEvent)
  | unsupported
deriving DecidableEq

/-- `Application::active_streams` (model.rs lines 106-108). -/
def active_streams (s : Application) : List StreamWrapper :=
  s.streams.filter (fun w => w.active)

/-- The height-accumulation loop of `scroll_to_stream`
(model.rs lines 211-221): walk the height sequence against the
available-height budget, stop at the first entry that would overflow,
and return how many entries were accepted. -/
def fit_count : List Nat → Nat → Nat
  | [], _ => 0
  | h :: t, avail => if avail < h then 0 else fit_count t (avail - h) + 1

/-- Steps 1-4 of the viewport algorithm (model.rs lines 204-232):
slice the active list according to the anchor (a panic—`none`—when
`scroll_index` is out of slicing range), run the height walk with
budget `height - 2`, drop one from the count ("only count streams
beyond the first"), and translate the count into the
`(top_index, bottom_index)` pair of fully visible positions.
`hfn` is the display height of an entry: `StreamWrapper::height()`
lives in the rendering code outside model.rs, so it is kept abstract. -/
def visible_range (hfn : StreamWrapper → Nat) (s : Application) :
    Option (Nat × Nat) :=
  let act := active_streams s
  match s.scroll_anchor with
  | .Top =>
      if s.scroll_index ≤ act.length then
        let seq := (act.drop s.scroll_index).map hfn
        let cnt := fit_count seq (s.height - 2) - 1
        some (s.scroll_index, s.scroll_index + cnt)
      else none
  | .Bottom =>
      if s.scroll_index < act.length then
        let seq := ((act.take (s.scroll_index + 1)).reverse).map hfn
        let cnt := fit_count seq (s.height - 2) - 1
        some (s.scroll_index - cnt, s.scroll_index)
      else none

/-- `Application::scroll_to_stream` (model.rs lines 203-241): compute
the fully visible range, then move the anchor only when the target
lies outside it. -/
def scroll_to_stream (hfn : StreamWrapper → Nat) (s : Application)
    (index : Nat) : Option Application :=
  match visible_range hfn s with
  | none => none
  | some (ti, bi) =>
      if index < ti then
        some { s with scroll_index := index, scroll_anchor := .Top }
      else if bi < index then
        some { s with scroll_index := index, scroll_anchor := .Bottom }
      else
        some s

/-- `Application::resize` (model.rs lines 198-201): store the new
terminal geometry. -/
def resize (s : Application) (width height : Nat) : Application :=
  { s with width := width, height := height }

/-- One history step of `update_streams` (model.rs lines 258-262):
`push_back` the polled value, then `pop_front` when the length
exceeds `VALUE_HISTORY_SIZE`.  This is the `record` operation of the
spec's StreamStore. -/
def record (l : List (Option F64)) (v : Option F64) : List (Option F64) :=
  let l2 := l ++ [v]
  if VALUE_HISTORY_SIZE < l2.length then l2.tail else l2

/-- The `assert!` block of `update_streams` (model.rs lines 248-256)
as a boolean check: a present value must be finite, at least `min()`
when present, and at most `max()` when present. -/
def checks_ok (sd : StreamData) : Bool :=
  match sd.value with
  | none => true
  | some v =>
      v.isFinite &&
      (match sd.min with | none => true | some m => F64.fle m v) &&
      (match sd.max with | none => true | some M => F64.fle v M)

/-- The per-entry body of `update_streams` (model.rs lines 245-263):
inactive entries are untouched; for an active entry the asserts run
(`none` = assertion failure aborts) and the polled value is recorded. -/
def update_stream (e : StreamWrapper) : Option StreamWrapper :=
  if e.active then
    if checks_ok e.stream then
      some { e with values := record e.values e.stream.value }
    else none
  else some e

/-- `Application::update_streams` (model.rs lines 243-265): run the
per-entry step over the whole list, aborting on the first assertion
failure. -/
def update_streams : List StreamWrapper → Option (List StreamWrapper)
  | [] => some []
  | e :: es =>
      match update_stream e with
      | none => none
      | some e2 =>
          match update_streams es with
          | none => none
          | some es2 => some (e2 :: es2)

/-- The Space-key mutation (model.rs lines 129-135): toggle
`expanded` on the `n`-th *active* entry of the full stream list;
`none` models the `unwrap()` panic when no such entry exists. -/
def toggle_nth_active : List StreamWrapper → Nat → Option (List StreamWrapper)
  | [], _ => none
  | e :: es, n =>
      if e.active then
        if n = 0 then some ({ e with expanded := !e.expanded } :: es)
        else
          match toggle_nth_active es (n - 1) with
          | none => none
          | some es2 => some (e :: es2)
      else
        match toggle_nth_active es n with
        | none => none
        | some es2 => some (e :: es2)

/-- The `Event::Key` arm of `handle` on the Main screen
(model.rs lines 113-160).  `none` models a panic: the `unwrap` in the
Space arm, a `scroll_to_stream` slice panic, or the
`active_streams().len() - 1` underflow in the Down arm when no stream
is active. -/
def handle_main_key (hfn : StreamWrapper → Nat) (s : Application) :
    Key → Option (Application × Bool)
  | .Up =>
      if 0 < s.selection_index then
        match scroll_to_stream hfn
            { s with selection_index := s.selection_index - 1 }
            (s.selection_index - 1) with
        | none => none
        | some s2 => some (s2, true)
      else some (s, false)
  | .Down =>
      if (active_streams s).length = 0 then none
      else if s.selection_index < (active_streams s).length - 1 then
        match scroll_to_stream hfn
            { s with selection_index := s.selection_index + 1 }
            (s.selection_index + 1) with
        | none => none
        | some s2 => some (s2, true)
      else some (s, false)
  | .Char c =>
      if c = ' ' then
        match toggle_nth_active s.streams s.selection_index with
        | none => none
        | some strs =>
            match scroll_to_stream hfn { s with streams := strs }
                s.selection_index with
            | none => none
            | some s2 => some (s2, true)
      else if c = 's' then some ({ s with screen := .Streams }, true)
      else if c = '+' then
        if s.interval_index < intervals.length - 1 then
          some ({ s with interval_index := s.interval_index + 1 }, true)
        else some (s, false)
      else if c = '-' then
        if 0 < s.interval_index then
          some ({ s with interval_index := s.interval_index - 1 }, true)
        else some (s, false)
      else if c = 'q' then some ({ s with running := false }, true)
      else some (s, false)
  | _ => some (s, false)

/-- `Application::handle` (model.rs lines 110-196).  On the Main
screen, mouse wheel presses re-dispatch as Down/Up key events
(lines 161-169); on the Streams screen only Esc acts
(lines 173-192); everything unmatched falls through to `false`. -/
def handle (hfn : StreamWrapper → Nat) (s : Application)
    (ev : Event) : Option (Application × Bool) :=
  match s.screen, ev with
  | .Main, .key k => handle_main_key hfn s k
  | .Main, .mouse (.Press .WheelUp _ _) => handle_main_key hfn s .Down
  | .Main, .mouse (.Press .WheelDown _ _) => handle_main_key hfn s .Up
  | .Main, _ => some (s, false)
  | .Streams, .key .Esc => some ({ s with screen := .Main }, true)
  | .Streams, _ => some (s, false)

/-- The external event loop feeding `handle` one event at a time
(spec section 5); used only to state invariant preservation over
event sequences. -/
def handle_all (hfn : StreamWrapper → Nat) (s : Application) :
    List Event → Option Application
  | [] => some s
  | ev :: evs =>
      match handle hfn s ev with
      | none => none
      | some (s2, _) => handle_all hfn s2 evs

/-- A convenient concrete height function for witnesses: every entry
three rows high, as in the spec's worked scenario. -/
def hfn0 : StreamWrapper → Nat := fun _ => 3

/-- A stream wrapper with no data, used to build concrete states. -/
def wrap0 : StreamWrapper :=
  { stream := { value := none, min := none, max := none },
    values := [], active := true, expanded := false }

/-- Concrete state for the spec's worked scenario: 5 active entries,
terminal height 12, `scroll_index = 0`, anchor `Top`. -/
def app8 : Application :=
  { running := true, width := 80, height := 12, screen := .Main,
    streams := [wrap0, wrap0, wrap0, wrap0, wrap0],
    selection_index := 0, scroll_index := 0, scroll_anchor := .Top,
    interval_index := 3 }

lemma visible_range_top (hfn : StreamWrapper → Nat) (s : Application)
    (ha : s.scroll_anchor = ScrollAnchor.Top)
    (hle : s.scroll_index ≤ (active_streams s).length) :
    visible_range hfn s =
      some (s.scroll_index,
        s.scroll_index +
          (fit_count (((active_streams s).drop s.scroll_index).map hfn)
              (s.height - 2) - 1)) := by
  unfold visible_range
  rw [ha]
  simp [hle]

lemma visible_range_bottom (hfn : StreamWrapper → Nat) (s : Application)
    (ha : s.scroll_anchor = ScrollAnchor.Bottom)
    (hlt : s.scroll_index < (active_streams s).length) :
    visible_range hfn s =
      some (s.scroll_index -
          (fit_count ((((active_streams s).take (s.scroll_index + 1)).reverse).map hfn)
              (s.height - 2) - 1),
        s.scroll_index) := by
  unfold visible_range
  rw [ha]
  simp [hlt]

lemma scroll_to_stream_eq (hfn : StreamWrapper → Nat) (s : Application)
    (index ti bi : Nat) (h : visible_range hfn s = some (ti, bi)) :
    scroll_to_stream hfn s index =
      if index < ti then
        some { s with scroll_index := index, scroll_anchor := ScrollAnchor.Top }
      else if bi < index then
        some { s with scroll_index := index, scroll_anchor := ScrollAnchor.Bottom }
      else some s := by
  rw [scroll_to_stream, h]

lemma scroll_to_stream_fixed_top (hfn : StreamWrapper → Nat)
    (t : Application) (ha : t.scroll_anchor = ScrollAnchor.Top)
    (hle : t.scroll_index ≤ (active_streams t).length) :
    scroll_to_stream hfn t t.scroll_index = some t := by
  rw [scroll_to_stream_eq hfn t t.scroll_index _ _ (visible_range_top hfn t ha hle)]
  rw [if_neg (lt_irrefl _), if_neg (Nat.not_lt.mpr (Nat.le_add_right _ _))]

lemma scroll_to_stream_fixed_bottom (hfn : StreamWrapper → Nat)
    (t : Application) (ha : t.scroll_anchor = ScrollAnchor.Bottom)
    (hlt : t.scroll_index < (active_streams t).length) :
    scroll_to_stream hfn t t.scroll_index = some t := by
  rw [scroll_to_stream_eq hfn t t.scroll_index _ _ (visible_range_bottom hfn t ha hlt)]
  rw [if_neg (Nat.not_lt.mpr (Nat.sub_le _ _)), if_neg (lt_irrefl _)]

/-- C1: whenever the active set is non-empty, the target is a valid
active index, the current scroll position is in range and the
terminal has at least the two reserved rows, `scroll_to_stream`
succeeds and the recomputed fully-visible range of the resulting
state contains the target. -/
theorem scroll_keeps_target_visible (hfn : StreamWrapper → Nat)
    (s : Application) (target : Nat)
    (_hne : 0 < (active_streams s).length)
    (htr : target < (active_streams s).length)
    (hsi : s.scroll_index < (active_streams s).length)
    (_hh : 2 ≤ s.height) :
    ∃ s2, scroll_to_stream hfn s target = some s2 ∧
      ∃ ti bi, visible_range hfn s2 = some (ti, bi) ∧
        ti ≤ target ∧ target ≤ bi := by
  have hvr : ∃ ti bi, visible_range hfn s = some (ti, bi) := by
    cases hanchor : s.scroll_anchor with
    | Top => exact ⟨_, _, visible_range_top hfn s hanchor (le_of_lt hsi)⟩
    | Bottom => exact ⟨_, _, visible_range_bottom hfn s hanchor hsi⟩
  rcases hvr with ⟨ti, bi, hvr⟩
  rw [scroll_to_stream_eq hfn s target ti bi hvr]
  by_cases h1 : target < ti
  · rw [if_pos h1]
    refine ⟨_, rfl, ?_⟩
    refine ⟨_, _,
      visible_range_top hfn
        { s with scroll_index := target, scroll_anchor := ScrollAnchor.Top }
        rfl (le_of_lt htr), ?_, ?_⟩
    · exact Nat.le_refl target
    · exact Nat.le_add_right target _
  · rw [if_neg h1]
    by_cases h2 : bi < target
    · rw [if_pos h2]
      refine ⟨_, rfl, ?_⟩
      refine ⟨_, _,
        visible_range_bottom hfn
          { s with scroll_index := target, scroll_anchor := ScrollAnchor.Bottom }
          rfl htr, ?_, ?_⟩
      · exact Nat.sub_le target _
      · exact Nat.le_refl target
    · rw [if_neg h2]
      exact ⟨s, rfl, ti, bi, hvr, Nat.le_of_not_lt h1, Nat.le_of_not_lt h2⟩

/-- Witness for C1: the worked five-entry scenario, target 4. -/
theorem scroll_keeps_target_visible_witness :
    0 < (active_streams app8).length ∧
    4 < (active_streams app8).length ∧
    app8.scroll_index < (active_streams app8).length ∧
    2 ≤ app8.height ∧
    (∃ s2, scroll_to_stream hfn0 app8 4 = some s2 ∧
      ∃ ti bi, visible_range hfn0 s2 = some (ti, bi) ∧
        ti ≤ 4 ∧ 4 ≤ bi) :=
  ⟨by decide, by decide, by decide, by decide,
    scroll_keeps_target_visible hfn0 app8 4
      (by decide) (by decide) (by decide) (by decide)⟩

/-- C5: the viewport algorithm is idempotent — a second call with the
same target and unchanged list/geometry returns the state of the
first call unchanged. -/
theorem scroll_to_stream_idempotent (hfn : StreamWrapper → Nat)
    (s s2 : Application) (target : Nat)
    (htr : target < (active_streams s).length)
    (h1 : scroll_to_stream hfn s target = some s2) :
    scroll_to_stream hfn s2 target = some s2 := by
  cases hvr : visible_range hfn s with
  | none => rw [scroll_to_stream, hvr] at h1; exact absurd h1 (by simp)
  | some p =>
      rcases p with ⟨ti, bi⟩
      rw [scroll_to_stream_eq hfn s target ti bi hvr] at h1
      by_cases hA : target < ti
      · rw [if_pos hA] at h1
        injection h1 with h1
        subst h1
        exact scroll_to_stream_fixed_top hfn
          { s with scroll_index := target, scroll_anchor := ScrollAnchor.Top }
          rfl (le_of_lt htr)
      · rw [if_neg hA] at h1
        by_cases hB : bi < target
        · rw [if_pos hB] at h1
          injection h1 with h1
          subst h1
          exact scroll_to_stream_fixed_bottom hfn
            { s with scroll_index := target, scroll_anchor := ScrollAnchor.Bottom }
            rfl htr
        · rw [if_neg hB] at h1
          injection h1 with h1
          subst h1
          rw [scroll_to_stream_eq hfn s target ti bi hvr, if_neg hA, if_neg hB]

/-- Witness for C5: re-running the scenario call is a no-op. -/
theorem scroll_to_stream_idempotent_witness :
    4 < (active_streams app8).length ∧
    scroll_to_stream hfn0 app8 4 =
      some { app8 with scroll_index := 4, scroll_anchor := ScrollAnchor.Bottom } ∧
    scroll_to_stream hfn0
        { app8 with scroll_index := 4, scroll_anchor := ScrollAnchor.Bottom } 4 =
      some { app8 with scroll_index := 4, scroll_anchor := ScrollAnchor.Bottom } :=
  ⟨by decide, rfl,
    scroll_to_stream_idempotent hfn0 app8 _ 4 (by decide) rfl⟩

/-- C8: with 5 active entries of height 3 and usable height 10, the
walk accepts 3 entries, the decrement leaves count 2, the visible
range is `[0, 2]`, and `scroll_to_stream 4` moves the anchor to
`scroll_index = 4`, `Bottom`. -/
theorem scenario_five_entries :
    fit_count (((active_streams app8).drop app8.scroll_index).map hfn0)
        (app8.height - 2) = 3 ∧
    visible_range hfn0 app8 = some (0, 2) ∧
    scroll_to_stream hfn0 app8 4 =
      some { app8 with scroll_index := 4, scroll_anchor := .Bottom } := by
  refine ⟨rfl, rfl, rfl⟩

/-- A hazardous state: no stream is active, the anchor is `Bottom`. -/
def app_empty_bottom : Application :=
  { running := true, width := 80, height := 10, screen := .Main,
    streams := [], selection_index := 0, scroll_index := 0,
    scroll_anchor := .Bottom, interval_index := 3 }

/-- The same hazardous state with a `Top` anchor. -/
def app_empty_top : Application :=
  { app_empty_bottom with scroll_anchor := .Top }

/-- C3: the hazardous states are *not* defensively guarded.  With zero
active streams and a `Bottom` anchor, `scroll_to_stream` slices
`active_streams[..=0]` out of bounds and panics (`none`); and even on
the non-panicking `Top` path with zero active streams it still moves
`scroll_index`/`scroll_anchor` although nothing is visible. -/
theorem scroll_to_stream_hazard_panics :
    scroll_to_stream hfn0 app_empty_bottom 0 = none ∧
    scroll_to_stream hfn0 app_empty_top 1 =
      some { app_empty_top with
             scroll_index := 1
             scroll_anchor := ScrollAnchor.Bottom } := by
  refine ⟨rfl, rfl⟩

/-- Concrete pre-resize state for C4: five active entries of height 3,
terminal height 12, selection 2 visible in the range `[0, 2]`. -/
def app4 : Application :=
  { running := true, width := 80, height := 12, screen := .Main,
    streams := [wrap0, wrap0, wrap0, wrap0, wrap0],
    selection_index := 2, scroll_index := 0, scroll_anchor := .Top,
    interval_index := 3 }

/-- C4 counterexample: before `resize` the selection (index 2) lies in
the visible range `[0, 2]`; after `resize` to terminal height 5 the
recomputed range is `[0, 0]`, the scroll state is untouched, and the
selection is no longer inside the visible range — `resize` does not
re-run the viewport algorithm. -/
theorem resize_skips_viewport_counterexample :
    visible_range hfn0 app4 = some (0, 2) ∧
    (resize app4 80 5).scroll_index = app4.scroll_index ∧
    (resize app4 80 5).scroll_anchor = app4.scroll_anchor ∧
    (resize app4 80 5).selection_index = 2 ∧
    visible_range hfn0 (resize app4 80 5) = some (0, 0) ∧
    ¬ (∃ ti bi, visible_range hfn0 (resize app4 80 5) = some (ti, bi) ∧
        ti ≤ (resize app4 80 5).selection_index ∧
        (resize app4 80 5).selection_index ≤ bi) := by
  refine ⟨rfl, rfl, rfl, rfl, rfl, ?_⟩
  rintro ⟨ti, bi, h1, h2, h3⟩
  have h0 : visible_range hfn0 (resize app4 80 5) = some (0, 0) := rfl
  rw [h0] at h1
  injection h1 with h1
  rw [Prod.mk.injEq] at h1
  obtain ⟨hti, hbi⟩ := h1
  subst hti
  subst hbi
  exact absurd h3 (by decide)

lemma record_eq_drop (l : List (Option F64)) (v : Option F64)
    (h : l.length ≤ VALUE_HISTORY_SIZE) :
    record l v = (l ++ [v]).drop ((l.length + 1) - VALUE_HISTORY_SIZE) := by
  show (if VALUE_HISTORY_SIZE < (l ++ [v]).length then (l ++ [v]).tail
        else (l ++ [v])) =
      (l ++ [v]).drop ((l.length + 1) - VALUE_HISTORY_SIZE)
  have hV : VALUE_HISTORY_SIZE = 512 := rfl
  have hlen : (l ++ [v]).length = l.length + 1 := by simp
  by_cases h2 : VALUE_HISTORY_SIZE < (l ++ [v]).length
  · rw [if_pos h2]
    have hone : (l.length + 1) - VALUE_HISTORY_SIZE = 1 := by omega
    rw [hone, List.drop_one]
  · rw [if_neg h2]
    have hzero : (l.length + 1) - VALUE_HISTORY_SIZE = 0 := by omega
    rw [hzero, List.drop_zero]

lemma record_length (l : List (Option F64)) (v : Option F64)
    (h : l.length ≤ VALUE_HISTORY_SIZE) :
    (record l v).length = min (l.length + 1) VALUE_HISTORY_SIZE := by
  have hV : VALUE_HISTORY_SIZE = 512 := rfl
  rw [record_eq_drop l v h, List.length_drop]
  simp only [List.length_append, List.length_cons, List.length_nil]
  rw [hV] at h ⊢
  omega

lemma foldl_record_eq (vs : List (Option F64)) :
    ∀ init : List (Option F64), init.length ≤ VALUE_HISTORY_SIZE →
      vs.foldl record init =
        (init ++ vs).drop ((init.length + vs.length) - VALUE_HISTORY_SIZE) := by
  induction vs with
  | nil =>
      intro init h
      simp only [List.foldl_nil, List.append_nil, List.length_nil, Nat.add_zero]
      rw [Nat.sub_eq_zero_of_le h, List.drop_zero]
  | cons v t ih =>
      intro init h
      have hV : VALUE_HISTORY_SIZE = 512 := rfl
      have hlen := record_length init v h
      have h2 : (record init v).length ≤ VALUE_HISTORY_SIZE := by
        rw [hlen]; exact Nat.min_le_right _ _
      rw [List.foldl_cons, ih (record init v) h2, hlen,
        record_eq_drop init v h]
      have hd : (init.length + 1) - VALUE_HISTORY_SIZE ≤ (init ++ [v]).length := by
        simp only [List.length_append, List.length_cons, List.length_nil]
        omega
      rw [← List.drop_append_of_le_length hd, List.drop_drop,
        List.append_assoc, List.singleton_append]
      congr 1
      simp only [List.length_cons]
      rw [hV] at h ⊢
      omega

/-- C2: the value history is a FIFO ring of capacity 512.  Folding
`record` from the empty history over any sequence of polled values
retains exactly the most recent 512 of them in order (so the length
never exceeds 512); a single `record` below capacity appends at the
back, and at capacity it appends at the back and evicts exactly the
oldest element. -/
theorem history_bounded_fifo :
    (∀ vs : List (Option F64),
       (vs.foldl record []).length = min vs.length VALUE_HISTORY_SIZE ∧
       vs.foldl record [] = vs.drop (vs.length - VALUE_HISTORY_SIZE)) ∧
    (∀ (l : List (Option F64)) (v : Option F64),
       l.length < VALUE_HISTORY_SIZE → record l v = l ++ [v]) ∧
    (∀ (l : List (Option F64)) (v : Option F64),
       l.length = VALUE_HISTORY_SIZE → record l v = l.tail ++ [v]) := by
  have hV : VALUE_HISTORY_SIZE = 512 := rfl
  refine ⟨fun vs => ?_, fun l v h => ?_, fun l v h => ?_⟩
  · have hfold := foldl_record_eq vs [] (by simp)
    simp only [List.length_nil, Nat.zero_add, List.nil_append] at hfold
    refine ⟨?_, hfold⟩
    rw [hfold, List.length_drop]
    rw [hV]
    omega
  · show (if VALUE_HISTORY_SIZE < (l ++ [v]).length then (l ++ [v]).tail
          else (l ++ [v])) = l ++ [v]
    rw [if_neg]
    simp only [List.length_append, List.length_cons, List.length_nil]
    rw [hV] at h ⊢
    omega
  · show (if VALUE_HISTORY_SIZE < (l ++ [v]).length then (l ++ [v]).tail
          else (l ++ [v])) = l.tail ++ [v]
    rw [if_pos]
    · exact List.tail_append_singleton_of_ne_nil
        (by intro hnil; rw [hnil] at h; rw [hV] at h; exact absurd h (by decide))
    · simp only [List.length_append, List.length_cons, List.length_nil]
      rw [hV] at h ⊢
      omega

/-- Witness for C2: a single step at capacity evicts the oldest
element, and a step below capacity only appends. -/
theorem history_bounded_fifo_witness :
    (List.replicate VALUE_HISTORY_SIZE (none : Option F64)).length =
      VALUE_HISTORY_SIZE ∧
    record (List.replicate VALUE_HISTORY_SIZE (none : Option F64))
        (some F64.inf) =
      (List.replicate VALUE_HISTORY_SIZE (none : Option F64)).tail ++
        [some F64.inf] ∧
    ([] : List (Option F64)).length < VALUE_HISTORY_SIZE ∧
    record ([] : List (Option F64)) (some F64.inf) = [some F64.inf] :=
  ⟨by simp, history_bounded_fifo.2.2 _ _ (by simp), by decide,
    history_bounded_fifo.2.1 [] _ (by decide)⟩

lemma checks_ok_false_iff (sd : StreamData) :
    checks_ok sd = false ↔
      ∃ v, sd.value = some v ∧
        (v.isFinite = false ∨
         (∃ m, sd.min = some m ∧ F64.fle m v = false) ∨
         (∃ M, sd.max = some M ∧ F64.fle v M = false)) := by
  rcases sd with ⟨val, mn, mx⟩
  cases val with
  | none => simp [checks_ok]
  | some v =>
      cases mn with
      | none =>
          cases mx with
          | none => cases hfin : v.isFinite <;> simp [checks_ok, hfin]
          | some M =>
              cases hfin : v.isFinite <;> cases hM : F64.fle v M <;>
                simp [checks_ok, hfin, hM]
      | some m =>
          cases mx with
          | none =>
              cases hfin : v.isFinite <;> cases hm : F64.fle m v <;>
                simp [checks_ok, hfin, hm]
          | some M =>
              cases hfin : v.isFinite <;> cases hm : F64.fle m v <;>
                cases hM : F64.fle v M <;> simp [checks_ok, hfin, hm, hM]

lemma checks_ok_of_good (sd : StreamData)
    (h : sd.value = none ∨
      ∃ v, sd.value = some v ∧ v.isFinite = true ∧
        (∀ m, sd.min = some m → F64.fle m v = true) ∧
        (∀ M, sd.max = some M → F64.fle v M = true)) :
    checks_ok sd = true := by
  rcases sd with ⟨val, mn, mx⟩
  rcases h with h | ⟨v, hv, hfin, hmin, hmax⟩
  · simp only at h
    subst h
    rfl
  · simp only at hv hfin hmin hmax
    subst hv
    cases mn with
    | none =>
        cases mx with
        | none => simp [checks_ok, hfin]
        | some M => simp [checks_ok, hfin, hmax M rfl]
    | some m =>
        cases mx with
        | none => simp [checks_ok, hfin, hmin m rfl]
        | some M => simp [checks_ok, hfin, hmin m rfl, hmax M rfl]

/-- C6: a Stream contract violation is a fatal defect, never a silent
clamp.  For an active entry, `update_streams` aborts (assertion
failure, `none`) exactly when the polled value is present and
non-finite, or below a declared `min`, or above a declared `max`;
when the value is absent or in contract, the step completes and the
value is appended unmodified by `record`.  One violating active entry
aborts the whole `update_streams` pass. -/
theorem stream_contract_enforced :
    (∀ e : StreamWrapper, e.active = true →
       (update_stream e = none ↔
         ∃ v, e.stream.value = some v ∧
           (v.isFinite = false ∨
            (∃ m, e.stream.min = some m ∧ F64.fle m v = false) ∨
            (∃ M, e.stream.max = some M ∧ F64.fle v M = false)))) ∧
    (∀ e : StreamWrapper, e.active = true →
       (e.stream.value = none ∨
         ∃ v, e.stream.value = some v ∧ v.isFinite = true ∧
           (∀ m, e.stream.min = some m → F64.fle m v = true) ∧
           (∀ M, e.stream.max = some M → F64.fle v M = true)) →
       update_stream e = some { e with values := record e.values e.stream.value }) ∧
    (∀ (es : List StreamWrapper) (e : StreamWrapper), e ∈ es →
       e.active = true → update_stream e = none → update_streams es = none) := by
  refine ⟨fun e ha => ?_, fun e ha hgood => ?_, fun es => ?_⟩
  · rw [← checks_ok_false_iff]
    rw [update_stream, if_pos ha]
    cases hc : checks_ok e.stream <;> simp [hc]
  · rw [update_stream, if_pos ha, if_pos (checks_ok_of_good e.stream hgood)]
  · induction es with
    | nil => intro e hmem; exact absurd hmem (List.not_mem_nil e)
    | cons a t ih =>
        intro e hmem ha hnone
        rcases List.mem_cons.mp hmem with h | h
        · subst h
          rw [update_streams, hnone]
        · rw [update_streams]
          cases hu : update_stream a with
          | none => rfl
          | some a2 => rw [ih e h ha hnone]

/-- An active entry whose stream yields NaN: a contract violation. -/
def wrap_bad : StreamWrapper :=
  { stream := { value := some F64.nan, min := none, max := none },
    values := [], active := true, expanded := false }

/-- Witness for C6: the NaN entry aborts (alone and within a pass);
the quiet entry `wrap0` completes and appends. -/
theorem stream_contract_enforced_witness :
    wrap_bad.active = true ∧
    update_stream wrap_bad = none ∧
    update_stream wrap0 =
      some { wrap0 with values := record wrap0.values wrap0.stream.value } ∧
    update_streams [wrap_bad] = none := by
  have h1 : update_stream wrap_bad = none :=
    (stream_contract_enforced.1 wrap_bad rfl).mpr ⟨F64.nan, rfl, Or.inl rfl⟩
  exact ⟨rfl, h1, stream_contract_enforced.2.1 wrap0 rfl (Or.inl rfl),
    stream_contract_enforced.2.2 [wrap_bad] wrap_bad (by simp) rfl h1⟩

lemma scroll_to_stream_fields (hfn : StreamWrapper → Nat) (s s2 : Application)
    (index : Nat) (h : scroll_to_stream hfn s index = some s2) :
    s2.running = s.running ∧ s2.width = s.width ∧ s2.height = s.height ∧
    s2.screen = s.screen ∧ s2.streams = s.streams ∧
    s2.selection_index = s.selection_index ∧
    s2.interval_index = s.interval_index := by
  cases hvr : visible_range hfn s with
  | none => rw [scroll_to_stream, hvr] at h; exact absurd h (by simp)
  | some p =>
      rcases p with ⟨ti, bi⟩
      rw [scroll_to_stream_eq hfn s index ti bi hvr] at h
      split_ifs at h <;>
        (injection h with h; subst h; exact ⟨rfl, rfl, rfl, rfl, rfl, rfl, rfl⟩)

lemma toggle_nth_active_ne (l : List StreamWrapper) :
    ∀ (n : Nat) (l2 : List StreamWrapper),
      toggle_nth_active l n = some l2 → l2 ≠ l := by
  induction l with
  | nil => intro n l2 h; exact absurd h (by simp [toggle_nth_active])
  | cons e es ih =>
      intro n l2 h
      rw [toggle_nth_active] at h
      by_cases ha : e.active
      · rw [if_pos ha] at h
        by_cases hn : n = 0
        · rw [if_pos hn] at h
          injection h with h
          subst h
          intro hEq
          rw [List.cons.injEq] at hEq
          have h2 := congrArg StreamWrapper.expanded hEq.1
          simp at h2
        · rw [if_neg hn] at h
          cases hrec : toggle_nth_active es (n - 1) with
          | none => rw [hrec] at h; exact absurd h (by simp)
          | some es2 =>
              rw [hrec] at h
              injection h with h
              subst h
              intro hEq
              rw [List.cons.injEq] at hEq
              exact ih (n - 1) es2 hrec hEq.2
      · rw [if_neg ha] at h
        cases hrec : toggle_nth_active es n with
        | none => rw [hrec] at h; exact absurd h (by simp)
        | some es2 =>
            rw [hrec] at h
            injection h with h
            subst h
            intro hEq
            rw [List.cons.injEq] at hEq
            exact ih n es2 hrec hEq.2

lemma some_pair_inj {a c : Application} {b d : Bool}
    (h : some (a, b) = some (c, d)) : a = c ∧ b = d := by
  injection h with h
  exact ⟨congrArg Prod.fst h, congrArg Prod.snd h⟩

lemma handle_main_key_interval (hfn : StreamWrapper → Nat)
    (s : Application) (k : Key) (s2 : Application) (b : Bool)
    (hii : s.interval_index < intervals.length)
    (h : handle_main_key hfn s k = some (s2, b)) :
    s2.interval_index < intervals.length := by
  cases k with
  | Up =>
      rw [handle_main_key] at h
      split_ifs at h
      · cases hsc : scroll_to_stream hfn
            { s with selection_index := s.selection_index - 1 }
            (s.selection_index - 1) with
        | none => rw [hsc] at h; exact absurd h (by simp)
        | some s3 =>
            rw [hsc] at h
            obtain ⟨h1, -⟩ := some_pair_inj h
            subst h1
            have hf := (scroll_to_stream_fields hfn _ s3 _ hsc).2.2.2.2.2.2
            rw [hf]
            exact hii
      · obtain ⟨h1, -⟩ := some_pair_inj h
        subst h1
        exact hii
  | Down =>
      rw [handle_main_key] at h
      split_ifs at h
      · cases hsc : scroll_to_stream hfn
            { s with selection_index := s.selection_index + 1 }
            (s.selection_index + 1) with
        | none => rw [hsc] at h; exact absurd h (by simp)
        | some s3 =>
            rw [hsc] at h
            obtain ⟨h1, -⟩ := some_pair_inj h
            subst h1
            have hf := (scroll_to_stream_fields hfn _ s3 _ hsc).2.2.2.2.2.2
            rw [hf]
            exact hii
      · obtain ⟨h1, -⟩ := some_pair_inj h
        subst h1
        exact hii
  | Char c =>
      rw [handle_main_key] at h
      by_cases hc1 : c = ' '
      · rw [if_pos hc1] at h
        cases htg : toggle_nth_active s.streams s.selection_index with
        | none => rw [htg] at h; exact absurd h (by simp)
        | some strs =>
            rw [htg] at h
            replace h :
                (match scroll_to_stream hfn { s with streams := strs }
                    s.selection_index with
                  | none => none
                  | some s4 => some (s4, true)) = some (s2, b) := h
            cases hsc : scroll_to_stream hfn { s with streams := strs }
                s.selection_index with
            | none => rw [hsc] at h; exact absurd h (by simp)
            | some s3 =>
                rw [hsc] at h
                obtain ⟨h1, -⟩ := some_pair_inj h
                subst h1
                have hf := (scroll_to_stream_fields hfn _ s3 _ hsc).2.2.2.2.2.2
                rw [hf]
                exact hii
      · rw [if_neg hc1] at h
        by_cases hc2 : c = 's'
        · rw [if_pos hc2] at h
          obtain ⟨h1, -⟩ := some_pair_inj h
          subst h1
          exact hii
        · rw [if_neg hc2] at h
          by_cases hc3 : c = '+'
          · rw [if_pos hc3] at h
            split_ifs at h with hlt
            · obtain ⟨h1, -⟩ := some_pair_inj h
              subst h1
              show s.interval_index + 1 < intervals.length
              omega
            · obtain ⟨h1, -⟩ := some_pair_inj h
              subst h1
              exact hii
          · rw [if_neg hc3] at h
            by_cases hc4 : c = '-'
            · rw [if_pos hc4] at h
              split_ifs at h with hlt
              · obtain ⟨h1, -⟩ := some_pair_inj h
                subst h1
                show s.interval_index - 1 < intervals.length
                omega
              · obtain ⟨h1, -⟩ := some_pair_inj h
                subst h1
                exact hii
            · rw [if_neg hc4] at h
              by_cases hc5 : c = 'q'
              · rw [if_pos hc5] at h
                obtain ⟨h1, -⟩ := some_pair_inj h
                subst h1
                exact hii
              · rw [if_neg hc5] at h
                obtain ⟨h1, -⟩ := some_pair_inj h
                subst h1
                exact hii
  | Esc =>
      replace h : some (s, false) = some (s2, b) := h
      obtain ⟨h1, -⟩ := some_pair_inj h
      subst h1
      exact hii
  | Other =>
      replace h : some (s, false) = some (s2, b) := h
      obtain ⟨h1, -⟩ := some_pair_inj h
      subst h1
      exact hii

lemma handle_interval (hfn : StreamWrapper → Nat)
    (s : Application) (ev : Event) (s2 : Application) (b : Bool)
    (hii : s.interval_index < intervals.length)
    (h : handle hfn s ev = some (s2, b)) :
    s2.interval_index < intervals.length := by
  unfold handle at h
  split at h
  · exact handle_main_key_interval hfn s _ s2 b hii h
  · exact handle_main_key_interval hfn s _ s2 b hii h
  · exact handle_main_key_interval hfn s _ s2 b hii h
  · obtain ⟨h1, -⟩ := some_pair_inj h; subst h1; exact hii
  · obtain ⟨h1, -⟩ := some_pair_inj h; subst h1; exact hii
  · obtain ⟨h1, -⟩ := some_pair_inj h; subst h1; exact hii

lemma handle_all_interval (hfn : StreamWrapper → Nat) (evs : List Event) :
    ∀ s s2 : Application, s.interval_index < intervals.length →
      handle_all hfn s evs = some s2 →
      s2.interval_index < intervals.length := by
  induction evs with
  | nil =>
      intro s s2 hii hall
      replace hall : some s = some s2 := hall
      injection hall with hall
      subst hall
      exact hii
  | cons ev t ih =>
      intro s s2 hii hall
      rw [handle_all] at hall
      cases hh : handle hfn s ev with
      | none => rw [hh] at hall; exact absurd hall (by simp)
      | some p =>
          rcases p with ⟨s3, b⟩
          rw [hh] at hall
          exact ih s3 s2 (handle_interval hfn s ev s3 b hii hh) hall

/-- C7: the interval cursor is clamped with no wraparound: on the Main
screen a `+` at the last preset and a `-` at index 0 leave the state
unchanged and signal no redraw, and `0 ≤ interval_index <
len(intervals)` is preserved by every handled event and every event
sequence. -/
theorem interval_cursor_clamped (hfn : StreamWrapper → Nat) :
    (∀ s : Application, s.screen = Screen.Main →
       s.interval_index = intervals.length - 1 →
       handle hfn s (Event.key (Key.Char '+')) = some (s, false)) ∧
    (∀ s : Application, s.screen = Screen.Main → s.interval_index = 0 →
       handle hfn s (Event.key (Key.Char '-')) = some (s, false)) ∧
    (∀ (s : Application) (ev : Event) (s2 : Application) (b : Bool),
       s.interval_index < intervals.length →
       handle hfn s ev = some (s2, b) →
       s2.interval_index < intervals.length) ∧
    (∀ (s : Application) (evs : List Event) (s2 : Application),
       s.interval_index < intervals.length →
       handle_all hfn s evs = some s2 →
       s2.interval_index < intervals.length) := by
  refine ⟨fun s hscr hlast => ?_, fun s hscr h0 => ?_,
    fun s ev s2 b hii h => handle_interval hfn s ev s2 b hii h,
    fun s evs s2 hii hall => handle_all_interval hfn evs s s2 hii hall⟩
  · have hm : handle hfn s (Event.key (Key.Char '+')) =
        handle_main_key hfn s (Key.Char '+') := by
      unfold handle
      rw [hscr]
    rw [hm, handle_main_key]
    rw [if_neg (by decide : ¬('+' : Char) = ' '),
      if_neg (by decide : ¬('+' : Char) = 's'),
      if_pos (rfl : ('+' : Char) = '+'),
      hlast, if_neg (lt_irrefl _)]
  · have hm : handle hfn s (Event.key (Key.Char '-')) =
        handle_main_key hfn s (Key.Char '-') := by
      unfold handle
      rw [hscr]
    rw [hm, handle_main_key]
    rw [if_neg (by decide : ¬('-' : Char) = ' '),
      if_neg (by decide : ¬('-' : Char) = 's'),
      if_neg (by decide : ¬('-' : Char) = '+'),
      if_pos (rfl : ('-' : Char) = '-'),
      h0, if_neg (lt_irrefl _)]

/-- Main-screen state at the last interval preset. -/
def appI : Application := { app8 with interval_index := 10 }

/-- Main-screen state at the first interval preset. -/
def appZ : Application := { app8 with interval_index := 0 }

/-- Witness for C7: clamping at both ends, and bound preservation for
a concrete `+` step and a concrete two-event sequence. -/
theorem interval_cursor_clamped_witness :
    appI.screen = Screen.Main ∧
    appI.interval_index = intervals.length - 1 ∧
    handle hfn0 appI (Event.key (Key.Char '+')) = some (appI, false) ∧
    appZ.screen = Screen.Main ∧
    appZ.interval_index = 0 ∧
    handle hfn0 appZ (Event.key (Key.Char '-')) = some (appZ, false) ∧
    app8.interval_index < intervals.length ∧
    handle hfn0 app8 (Event.key (Key.Char '+')) =
      some ({ app8 with interval_index := 4 }, true) ∧
    ({ app8 with interval_index := 4 } : Application).interval_index <
      intervals.length ∧
    handle_all hfn0 app8
        [Event.key (Key.Char '+'), Event.key (Key.Char '+')] =
      some { app8 with interval_index := 5 } ∧
    ({ app8 with interval_index := 5 } : Application).interval_index <
      intervals.length := by
  refine ⟨rfl, rfl, (interval_cursor_clamped hfn0).1 appI rfl rfl,
    rfl, rfl, (interval_cursor_clamped hfn0).2.1 appZ rfl rfl,
    by decide, rfl, ?_, rfl, ?_⟩
  · exact (interval_cursor_clamped hfn0).2.2.1 app8
      (Event.key (Key.Char '+')) _ true (by decide) rfl
  · exact (interval_cursor_clamped hfn0).2.2.2 app8
      [Event.key (Key.Char '+'), Event.key (Key.Char '+')] _ (by decide) rfl

lemma handle_main_key_no_change (hfn : StreamWrapper → Nat)
    (s : Application) (k : Key) (b : Bool)
    (hscr : s.screen = Screen.Main)
    (hrun : s.running = true)
    (h : handle_main_key hfn s k = some (s, b)) : b = false := by
  cases k with
  | Up =>
      rw [handle_main_key] at h
      split_ifs at h with hsel
      · cases hsc : scroll_to_stream hfn
            { s with selection_index := s.selection_index - 1 }
            (s.selection_index - 1) with
        | none => rw [hsc] at h; exact absurd h (by simp)
        | some s3 =>
            rw [hsc] at h
            obtain ⟨h1, -⟩ := some_pair_inj h
            have hf := (scroll_to_stream_fields hfn _ s3 _ hsc).2.2.2.2.2.1
            rw [h1] at hf
            have hf2 : s.selection_index = s.selection_index - 1 := hf
            exact absurd hf2 (by omega)
      · exact ((some_pair_inj h).2).symm
  | Down =>
      rw [handle_main_key] at h
      split_ifs at h with hsel
      · cases hsc : scroll_to_stream hfn
            { s with selection_index := s.selection_index + 1 }
            (s.selection_index + 1) with
        | none => rw [hsc] at h; exact absurd h (by simp)
        | some s3 =>
            rw [hsc] at h
            obtain ⟨h1, -⟩ := some_pair_inj h
            have hf := (scroll_to_stream_fields hfn _ s3 _ hsc).2.2.2.2.2.1
            rw [h1] at hf
            have hf2 : s.selection_index = s.selection_index + 1 := hf
            exact absurd hf2 (by omega)
      · exact ((some_pair_inj h).2).symm
  | Char c =>
      rw [handle_main_key] at h
      by_cases hc1 : c = ' '
      · rw [if_pos hc1] at h
        cases htg : toggle_nth_active s.streams s.selection_index with
        | none => rw [htg] at h; exact absurd h (by simp)
        | some strs =>
            rw [htg] at h
            replace h :
                (match scroll_to_stream hfn { s with streams := strs }
                    s.selection_index with
                  | none => none
                  | some s4 => some (s4, true)) = some (s, b) := h
            cases hsc : scroll_to_stream hfn { s with streams := strs }
                s.selection_index with
            | none => rw [hsc] at h; exact absurd h (by simp)
            | some s3 =>
                rw [hsc] at h
                obtain ⟨h1, -⟩ := some_pair_inj h
                have hf := (scroll_to_stream_fields hfn _ s3 _ hsc).2.2.2.2.1
                rw [h1] at hf
                exact absurd hf.symm (toggle_nth_active_ne s.streams
                  s.selection_index strs htg)
      · rw [if_neg hc1] at h
        by_cases hc2 : c = 's'
        · rw [if_pos hc2] at h
          obtain ⟨h1, -⟩ := some_pair_inj h
          have h2 := congrArg Application.screen h1
          rw [hscr] at h2
          exact absurd h2 (by simp)
        · rw [if_neg hc2] at h
          by_cases hc3 : c = '+'
          · rw [if_pos hc3] at h
            split_ifs at h with hlt
            · obtain ⟨h1, -⟩ := some_pair_inj h
              have h2 := congrArg Application.interval_index h1
              exact absurd h2 (by simp)
            · exact ((some_pair_inj h).2).symm
          · rw [if_neg hc3] at h
            by_cases hc4 : c = '-'
            · rw [if_pos hc4] at h
              split_ifs at h with hlt
              · obtain ⟨h1, -⟩ := some_pair_inj h
                have h2 := congrArg Application.interval_index h1
                have h3 : s.interval_index - 1 = s.interval_index := h2
                exact absurd h3 (by omega)
              · exact ((some_pair_inj h).2).symm
            · rw [if_neg hc4] at h
              by_cases hc5 : c = 'q'
              · rw [if_pos hc5] at h
                obtain ⟨h1, -⟩ := some_pair_inj h
                have h2 := congrArg Application.running h1
                rw [hrun] at h2
                exact absurd h2 (by simp)
              · rw [if_neg hc5] at h
                exact ((some_pair_inj h).2).symm
  | Esc =>
      replace h : some (s, false) = some (s, b) := h
      exact ((some_pair_inj h).2).symm
  | Other =>
      replace h : some (s, false) = some (s, b) := h
      exact ((some_pair_inj h).2).symm

/-- C9 amended: while the application is running, an event that leaves
the entire state unchanged signals no redraw; the sole exception in
the code is `q` on the Main screen when `running` is already false,
which returns true without changing anything. -/
theorem no_redraw_without_change (hfn : StreamWrapper → Nat)
    (s : Application) (ev : Event) (b : Bool)
    (hrun : s.running = true)
    (h : handle hfn s ev = some (s, b)) : b = false := by
  unfold handle at h
  split at h
  · exact handle_main_key_no_change hfn s _ b (by assumption) hrun h
  · exact handle_main_key_no_change hfn s _ b (by assumption) hrun h
  · exact handle_main_key_no_change hfn s _ b (by assumption) hrun h
  · exact ((some_pair_inj h).2).symm
  · obtain ⟨h1, -⟩ := some_pair_inj h
    have h2 := congrArg Application.screen h1
    have h3 : s.screen = Screen.Streams := by assumption
    rw [h3] at h2
    exact absurd h2 (by simp)
  · exact ((some_pair_inj h).2).symm

/-- The Main-screen state after quitting: `running` is already false. -/
def app9 : Application := { app8 with running := false }

/-- C9 counterexample: with `running` already false, `q` changes
nothing (the assignment re-stores `false`) yet `handle` still returns
true — a redraw is signaled for an event that produced no state
change. -/
theorem quit_redraw_without_change_counterexample :
    app9.running = false ∧
    handle hfn0 app9 (Event.key (Key.Char 'q')) = some (app9, true) :=
  ⟨rfl, rfl⟩

/-- Witness for C9 (amended): an unmatched event on a running state
returns the same state with a false redraw flag. -/
theorem no_redraw_without_change_witness :
    app8.running = true ∧
    handle hfn0 app8 Event.unsupported = some (app8, false) ∧
    false = false :=
  ⟨rfl, rfl, no_redraw_without_change hfn0 app8 Event.unsupported false rfl rfl⟩

/-- C10: on the Streams screen every event other than Esc leaves the
state unchanged and signals no redraw, while Esc changes only the
`screen` field (back to Main) and signals a redraw. -/
theorem streams_screen_inert (hfn : StreamWrapper → Nat) (s : Application)
    (hscr : s.screen = Screen.Streams) :
    (∀ ev : Event, ev ≠ Event.key Key.Esc →
       handle hfn s ev = some (s, false)) ∧
    handle hfn s (Event.key Key.Esc) =
      some ({ s with screen := Screen.Main }, true) := by
  constructor
  · intro ev hne
    unfold handle
    rw [hscr]
    cases ev with
    | key k =>
        cases k with
        | Esc => exact absurd rfl hne
        | Up => rfl
        | Down => rfl
        | Char c => rfl
        | Other => rfl
    | mouse m =>
        cases m with
        | Press mb x y => cases mb <;> rfl
        | Other => rfl
    | unsupported => rfl
  · unfold handle
    rw [hscr]

/-- Streams-screen state used in the C10 witness. -/
def appS : Application := { app8 with screen := Screen.Streams }

/-- Witness for C10: the Up key and the wheel do nothing on the
Streams screen; Esc goes back to Main with only the screen changed. -/
theorem streams_screen_inert_witness :
    appS.screen = Screen.Streams ∧
    handle hfn0 appS (Event.key Key.Up) = some (appS, false) ∧
    handle hfn0 appS (Event.mouse (MouseEvent.Press MouseButton.WheelUp 0 0)) =
      some (appS, false) ∧
    handle hfn0 appS (Event.key Key.Esc) =
      some ({ appS with screen := Screen.Main }, true) :=
  ⟨rfl,
    (streams_screen_inert hfn0 appS rfl).1 (Event.key Key.Up) (by decide),
    (streams_screen_inert hfn0 appS rfl).1
      (Event.mouse (MouseEvent.Press MouseButton.WheelUp 0 0)) (by decide),
    (streams_screen_inert hfn0 appS rfl).2⟩

/-- C4 amended: `resize` only records the new terminal geometry; every
other component of the state, in particular `scroll_index` and
`scroll_anchor`, is left untouched and the viewport algorithm is not
re-run. -/
theorem resize_sets_geometry_only (s : Application) (w h : Nat) :
    resize s w h = { s with width := w, height := h } := rfl

end Hegemon
